import Mathlib

/-!
Verification development for the `commandspec` / `sh-inline` crate
(`src/lib.rs`, `src/internals.rs`, `src/macros.rs`).

The core of the crate is:
  * `shlex::quote` / `shlex::split` (the POSIX-style tokenizer dependency that
    the crate uses both for the mini-language lines and for the final command
    string) — modelled here character-by-character after the shlex crate
    (`Shlex::parse_word`, `parse_double`, `parse_single`, and `quote`);
  * `CommandArg` rendering (`impl fmt::Display for CommandArg`,
    `shell_quote`, `bash_binary_quote`, `From<&Path> for CommandArg`);
  * the script-spec parser `impl_commandify` (state machine `Cd → Env → Cmd`);
  * `CommandSpec::to_command` (POSIX branch), with the file-system operations
    (`canonicalize_path`, `current_dir`) passed in as explicit inputs;
  * `CommandSpecExt::execute` outcome classification.

Rust `panic!`/`unwrap`/`expect` sites are modelled by explicit `panicked`
constructors so that crash behaviour is observable in the embedding.
Strings are modelled at the `List Char` level; Unicode whitespace beyond
the ASCII range is not modelled (the claims do not depend on it).
-/

set_option maxRecDepth 4000

namespace Commandspec

/-- The single-quote character (codepoint 39). -/
def squote : Char := Char.ofNat 39

/-- The backquote character (codepoint 96). -/
def backquote : Char := Char.ofNat 96

/-! ### The shlex tokenizer (model of `shlex::split`)

`shlex::split` iterates `Shlex::next`: skip whitespace and `#`-comments, then
`parse_word`, which handles double quotes (`parse_double`: backslash escapes
`$`, backquote, `"`, `\`, and removes backslash-newline), single quotes
(`parse_single`: no escapes), and unquoted backslashes (escape next character,
backslash-newline removed).  An unterminated quote or trailing backslash sets
`had_error`, making `split` return `None`.  We model the whole iteration as a
single character-at-a-time state machine so that everything is structurally
recursive. -/

/-- Whitespace as recognized by the shlex tokenizer (space, tab, newline). -/
def isShWs (c : Char) : Bool := c == ' ' || c == '\t' || c == '\n'

/-- Tokenizer mode: between words, in a comment, in a word, after an unquoted
backslash, inside single quotes, inside double quotes, after a backslash
inside double quotes. -/
inductive ShMode
  | skip
  | comment
  | word
  | wordBS
  | single
  | double
  | doubleBS
deriving DecidableEq

/-- One-character-at-a-time transcription of the `shlex` crate's tokenizer
(`Shlex::next` / `parse_word` / `parse_single` / `parse_double`).
`cur` is the word collected so far, `toks` the finished tokens.
`none` models `had_error` (unterminated quote / trailing backslash). -/
def shlexRun : ShMode → List Char → List (List Char) → List Char → Option (List (List Char))
  | m, cur, toks, [] =>
    match m with
    | .skip => some toks
    | .comment => some toks
    | .word => some (toks ++ [cur])
    | _ => none
  | m, cur, toks, c :: rest =>
    match m with
    | .skip =>
      if isShWs c then shlexRun .skip cur toks rest
      else if c = '#' then shlexRun .comment cur toks rest
      else if c = '"' then shlexRun .double [] toks rest
      else if c = squote then shlexRun .single [] toks rest
      else if c = '\\' then shlexRun .wordBS [] toks rest
      else shlexRun .word [c] toks rest
    | .comment =>
      if c = '\n' then shlexRun .skip cur toks rest
      else shlexRun .comment cur toks rest
    | .word =>
      if isShWs c then shlexRun .skip [] (toks ++ [cur]) rest
      else if c = '"' then shlexRun .double cur toks rest
      else if c = squote then shlexRun .single cur toks rest
      else if c = '\\' then shlexRun .wordBS cur toks rest
      else shlexRun .word (cur ++ [c]) toks rest
    | .wordBS =>
      if c = '\n' then shlexRun .word cur toks rest
      else shlexRun .word (cur ++ [c]) toks rest
    | .single =>
      if c = squote then shlexRun .word cur toks rest
      else shlexRun .single (cur ++ [c]) toks rest
    | .double =>
      if c = '"' then shlexRun .word cur toks rest
      else if c = '\\' then shlexRun .doubleBS cur toks rest
      else shlexRun .double (cur ++ [c]) toks rest
    | .doubleBS =>
      if c = '$' ∨ c = backquote ∨ c = '"' ∨ c = '\\' then shlexRun .double (cur ++ [c]) toks rest
      else if c = '\n' then shlexRun .double cur toks rest
      else shlexRun .double (cur ++ ['\\', c]) toks rest

/-- `shlex::split` on a character list. -/
def shlexSplitChars (l : List Char) : Option (List (List Char)) :=
  shlexRun .skip [] [] l

/-- `shlex::split` on a `String`. -/
def shlexSplit (s : String) : Option (List String) :=
  (shlexSplitChars s.data).map (List.map String.mk)

/-! ### `shlex::quote` (used by `shell_quote` in both lib.rs and internals.rs) -/

/-- The characters that make `shlex::quote` choose the double-quoted form. -/
def isQuoteSpecial (c : Char) : Bool :=
  c == '|' || c == '&' || c == ';' || c == '<' || c == '>' || c == '(' || c == ')' ||
  c == '$' || c == backquote || c == '\\' || c == '"' || c == squote || c == ' ' ||
  c == '\t' || c == '\r' || c == '\n' || c == '*' || c == '?' || c == '[' || c == '#' ||
  c == '~' || c == '=' || c == '%'

/-- The escaping `shlex::quote` applies inside its double-quoted form:
`$`, backquote, `"` and `\` get a preceding backslash. -/
def escDouble (l : List Char) : List Char :=
  l.flatMap (fun c =>
    if c == '$' || c == backquote || c == '"' || c == '\\' then ['\\', c] else [c])

/-- `shlex::quote`: empty string becomes `""`; a string containing a special
character is wrapped in double quotes with `escDouble` applied; any other
string is returned verbatim. -/
def shlexQuoteChars (l : List Char) : List Char :=
  if l = [] then ['"', '"']
  else if l.any isQuoteSpecial then '"' :: (escDouble l ++ ['"'])
  else l

/-- `shell_quote` from `src/internals.rs` (and `src/lib.rs`): just `shlex::quote`. -/
def shell_quote (value : String) : String :=
  String.mk (shlexQuoteChars value.data)

/-! ### `CommandArg` and its rendering (`impl fmt::Display for CommandArg`) -/

/-- `CommandArg` from `src/internals.rs` (the variant set including `Raw`). -/
inductive CommandArg
  | Empty
  | Literal (value : String)
  | Raw (value : String)
  | List (values : List String)
deriving DecidableEq

/-- Join character lists with a separator character (`Vec::join`). -/
def joinSep (sep : Char) : List (List Char) → List Char
  | [] => []
  | [x] => x
  | x :: xs => x ++ sep :: joinSep sep xs

/-- The `fmt::Display` impl for `CommandArg`: `Empty` renders as the empty
string, `Literal` through `shell_quote`, `Raw` verbatim, `List` as the
space-join of the `shell_quote` of each element. -/
def CommandArg.render : CommandArg → String
  | .Empty => ""
  | .Literal value => shell_quote value
  | .Raw value => value
  | .List values => String.mk (joinSep ' ' (values.map (fun x => shlexQuoteChars x.data)))

/-! ### `bash_binary_quote` and `From<&Path> for CommandArg` (internals.rs) -/

/-- Hex digit used by `std::ascii::escape_default` (lowercase). -/
def hexDigitChar (n : Nat) : Char :=
  if n < 10 then Char.ofNat (48 + n) else Char.ofNat (87 + n)

/-- `std::ascii::escape_default` on one byte: `\t`, `\r`, `\n`, `\\`,
backslash-quote for both quote characters, printable ASCII verbatim,
everything else as a lowercase `\xNN` escape. -/
def escape_default (b : Nat) : List Char :=
  if b = 9 then ['\\', 't']
  else if b = 13 then ['\\', 'r']
  else if b = 10 then ['\\', 'n']
  else if b = 92 then ['\\', '\\']
  else if b = 39 then ['\\', squote]
  else if b = 34 then ['\\', '"']
  else if 32 ≤ b ∧ b ≤ 126 then [Char.ofNat b]
  else ['\\', 'x', hexDigitChar (b / 16), hexDigitChar (b % 16)]

/-- `bash_binary_quote` from `src/internals.rs`: an ANSI-C-style `$'...'`
literal whose body is each byte passed through `std::ascii::escape_default`. -/
def bash_binary_quote (bytes : List Nat) : String :=
  String.mk ('$' :: squote :: (bytes.flatMap escape_default ++ [squote]))

/-- Is `b` a UTF-8 continuation byte (`0x80..=0xBF`)? -/
def isCont (b : Nat) : Bool := 128 ≤ b && b ≤ 191

/-- Strict UTF-8 decoding of a byte sequence, as done by `std::str::from_utf8`
(which backs `Path::to_str`): rejects overlong encodings, surrogates and
codepoints above `U+10FFFF`.  `none` means the bytes are not valid text. -/
def utf8Decode : List Nat → Option (List Char)
  | [] => some []
  | b :: rest =>
    if b ≤ 127 then (fun cs => Char.ofNat b :: cs) <$> utf8Decode rest
    else if 194 ≤ b ∧ b ≤ 223 then
      match rest with
      | b2 :: rest2 =>
        if isCont b2 then
          (fun cs => Char.ofNat ((b - 192) * 64 + (b2 - 128)) :: cs) <$> utf8Decode rest2
        else none
      | [] => none
    else if 224 ≤ b ∧ b ≤ 239 then
      match rest with
      | b2 :: b3 :: rest3 =>
        if (if b = 224 then 160 ≤ b2 ∧ b2 ≤ 191
            else if b = 237 then 128 ≤ b2 ∧ b2 ≤ 159
            else isCont b2 = true) ∧ isCont b3 = true then
          (fun cs => Char.ofNat ((b - 224) * 4096 + (b2 - 128) * 64 + (b3 - 128)) :: cs) <$>
            utf8Decode rest3
        else none
      | _ => none
    else if 240 ≤ b ∧ b ≤ 244 then
      match rest with
      | b2 :: b3 :: b4 :: rest4 =>
        if (if b = 240 then 144 ≤ b2 ∧ b2 ≤ 191
            else if b = 244 then 128 ≤ b2 ∧ b2 ≤ 143
            else isCont b2 = true) ∧ isCont b3 = true ∧ isCont b4 = true then
          (fun cs =>
            Char.ofNat ((b - 240) * 262144 + (b2 - 128) * 4096 + (b3 - 128) * 64 + (b4 - 128))
              :: cs) <$> utf8Decode rest4
        else none
      | _ => none
    else none

/-- `From<&Path> for CommandArg` (internals.rs): a path whose bytes are valid
UTF-8 becomes `Literal` of its text; otherwise `Raw (bash_binary_quote bytes)`. -/
def commandArgFromPath (bytes : List Nat) : CommandArg :=
  match utf8Decode bytes with
  | some cs => .Literal (String.mk cs)
  | none => .Raw (bash_binary_quote bytes)

/-- Modelled from the spec words, for comparison with `bash_binary_quote`:
a `$'...'` literal in which EVERY byte is escaped via its `\xNN` C-style
escape sequence.  (The spec sentence for claim C6 reads "every byte of the
path is escaped via its C-style escape sequence (e.g. `\x00`, `\xFF`)".) -/
def specHexQuote (bytes : List Nat) : String :=
  String.mk ('$' :: squote ::
    (bytes.flatMap (fun b => ['\\', 'x', hexDigitChar (b / 16), hexDigitChar (b % 16)]) ++
      [squote]))

/-! ### The script-spec parser (`impl_commandify`, internals.rs lines 235-324;
`commandify` in lib.rs lines 274-354 is the same code modulo formatting). -/

/-- Rust whitespace test used by `str::trim` / blank-line detection
(ASCII part of Unicode White_Space; exotic Unicode whitespace not modelled). -/
def isRustWs (c : Char) : Bool :=
  c == ' ' || c == '\t' || c == '\n' || c == '\r' || c == '\x0b' || c == '\x0c'

/-- `str::trim`: remove leading and trailing whitespace. -/
def trimChars (l : List Char) : List Char :=
  ((l.dropWhile isRustWs).reverse.dropWhile isRustWs).reverse

/-- `str::split('\n')`: split into lines at every newline; the empty string
yields one empty line. -/
def splitLines : List Char → List (List Char)
  | [] => [[]]
  | c :: rest =>
    if c = '\n' then [] :: splitLines rest
    else
      match splitLines rest with
      | [] => [[c]]
      | l :: ls => (c :: l) :: ls

/-- A line is blank when `raw_line.trim().is_empty()`. -/
def isBlankChars (l : List Char) : Bool := trimChars l == []

/-- Parser state (`SpecState` in the source): `Cd → Env → Cmd`. -/
inductive SpecState
  | Cd
  | Env
  | Cmd
deriving DecidableEq

/-- The mutable state of the `impl_commandify` loop: current `SpecState`,
collected environment bindings, optional working directory, and the collected
command-body lines. -/
structure ParseSt where
  state : SpecState
  env : List (List Char × List Char)
  cd : Option (List Char)
  commandLines : List (List Char)
deriving DecidableEq

/-- The initial parser state. -/
def initParseSt : ParseSt := ⟨.Cd, [], none, []⟩

/-- First occurrence of `=`: characters before it and after it. -/
def splitAtEq : List Char → Option (List Char × List Char)
  | [] => none
  | c :: rest =>
    if c = '=' then some ([], rest)
    else (fun p => (c :: p.1, p.2)) <$> splitAtEq rest

/-- `item.splitn(2, '=')`: at most two pieces, split at the first `=`. -/
def splitn2Eq (l : List Char) : List (List Char) :=
  match splitAtEq l with
  | some (a, b) => [a, b]
  | none => [l]

/-- `HashMap::insert` modelled on an association list. -/
def envInsert (env : List (List Char × List Char)) (k v : List Char) :
    List (List Char × List Char) :=
  env.filter (fun p => p.1 ≠ k) ++ [(k, v)]

/-- The `for item in &line[1..]` loop of the `export` branch
(internals.rs lines 289-295).  Note the source's guard is
`if !items.is_empty()` — since `splitn` never returns an empty list, the
guard always fires and the `env.insert` below it is unreachable. -/
def exportFold (env : List (List Char × List Char)) :
    List (List Char) → Except String (List (List Char × List Char))
  | [] => .ok env
  | item :: rest =>
    let items := splitn2Eq item
    if items ≠ [] then .error "Expected export of the format NAME=VALUE"
    else exportFold (envInsert env (items.getD 0 []) (items.getD 1 [])) rest

/-- One iteration of the `for raw_line in lines` loop of `impl_commandify`
(internals.rs lines 254-304): tokenization failure is mapped to an empty
token list (`unwrap_or_default`); in `Cmd` state every line is appended to
the command body; otherwise blank lines are skipped and the first token
selects the `cd` / `export` / command-start behaviour. -/
def specStep (st : ParseSt) (rawLine : List Char) : Except String ParseSt :=
  let line := (shlexSplitChars rawLine).getD []
  if st.state = .Cmd then .ok { st with commandLines := st.commandLines ++ [rawLine] }
  else if isBlankChars rawLine then .ok st
  else
    match line.head? with
    | some tok =>
      if tok = "cd".data then
        if st.state ≠ .Cd then .error "cd should be the first line in your command! macro."
        else if line.length ≠ 2 then
          .error ("Too many arguments in cd; expected 1, found " ++ toString (line.length - 1))
        else .ok { st with cd := some (line.getD 1 []), state := .Env }
      else if tok = "export".data then
        if st.state ≠ .Cd ∧ st.state ≠ .Env then
          .error "exports should follow cd but precede your command in the command! macro."
        else if 2 ≤ line.length then
          .error ("Not enough arguments in export; expected at least 1, found " ++
            toString (line.length - 1))
        else
          match exportFold st.env (line.drop 1) with
          | .error e => .error e
          | .ok env2 => .ok { st with env := env2, state := .Env }
      else .ok { st with commandLines := st.commandLines ++ [rawLine], state := .Cmd }
    | none => .ok { st with commandLines := st.commandLines ++ [rawLine], state := .Cmd }

/-- The whole `for raw_line in lines` loop. -/
def runSpecAux (st : ParseSt) : List (List Char) → Except String ParseSt
  | [] => .ok st
  | l :: ls =>
    match specStep st l with
    | .error e => .error e
    | .ok st2 => runSpecAux st2 ls

/-- `str::replace("\\\n", "\n")`: left-to-right, non-overlapping. -/
def replaceBackslashNl : List Char → List Char
  | [] => []
  | '\\' :: '\n' :: rest => '\n' :: replaceBackslashNl rest
  | c :: rest => c :: replaceBackslashNl rest

/-- `command_lines.join("\n").replace("\\\n", "\n")`. -/
def assembleBody (cls : List (List Char)) : List Char :=
  replaceBackslashNl (joinSep '\n' cls)

/-- `CommandSpec` from the source: binary, args, env, optional cd. -/
structure CommandSpec where
  binary : String
  args : List String
  env : List (String × String)
  cd : Option String
deriving DecidableEq

/-- Result of `impl_commandify` up to the `CommandSpec` construction.
`err` is an `Err` return value; `panicked` is a Rust panic (the
`expect` on `shlex::split`, internals.rs line 312, and the
`Vec::remove(0)` on an empty vector, line 313). -/
inductive CommandifyResult
  | ok (spec : CommandSpec)
  | err (msg : String)
  | panicked (msg : String)
deriving DecidableEq

/-- The post-loop part of `impl_commandify` (internals.rs lines 305-323):
the "no command" check, body assembly, tokenization of the body
(`expect` = panic on tokenizer failure), and `remove(0)`
(= panic on an empty token list). -/
def finishSpec (st : ParseSt) : CommandifyResult :=
  if st.state ≠ .Cmd ∨ st.commandLines = [] then
    .err "Didn't find a command in your command! macro."
  else
    match shlexSplitChars (assembleBody st.commandLines) with
    | none => .panicked "Command string couldn't be parsed by shlex"
    | some [] => .panicked "removal index (is 0) should be < len (is 0)"
    | some (b :: args) =>
      .ok ⟨String.mk b, args.map String.mk,
        st.env.map (fun p => (String.mk p.1, String.mk p.2)),
        st.cd.map String.mk⟩

/-- `impl_commandify` on a character list: trim the whole text, split into
lines, run the state machine, then assemble and tokenize the command body. -/
def impl_commandifyChars (value : List Char) : CommandifyResult :=
  match runSpecAux initParseSt (splitLines (trimChars value)) with
  | .error e => .err e
  | .ok st => finishSpec st

/-- `impl_commandify` from `src/internals.rs` (the parsing stage of
`commandify` in `src/lib.rs` is the same code). -/
def impl_commandify (value : String) : CommandifyResult :=
  impl_commandifyChars value.data

/-! ### `CommandSpec::to_command` (POSIX branch) and execution outcome -/

/-- A built `std::process::Command`: program, argument vector, working
directory, environment overlay. -/
structure CommandM where
  program : String
  args : List String
  cwd : String
  envOverlay : List (String × String)
deriving DecidableEq

/-- Result of building the process descriptor: either a `Command`, or a Rust
panic (the `unwrap` on `canonicalize_path`, internals.rs line 167). -/
inductive BuildResult
  | ok (cmd : CommandM)
  | panicked (msg : String)
deriving DecidableEq

/-- `CommandSpec::to_command` (internals.rs lines 164-205, POSIX branch:
`cfg!(windows)` is false; the crate's `From<&Path>` impl is unix-only).
`canonicalize` models `canonicalize_path` and `currentDir` models
`std::env::current_dir` (both are file-system I/O, passed as inputs).
The source calls `canonicalize_path(..).unwrap()`, so a canonicalization
error is a panic, not a return value. -/
def CommandSpec.to_command (canonicalize : String → Except String String)
    (currentDir : String) (spec : CommandSpec) : BuildResult :=
  match spec.cd with
  | some cdv =>
    match canonicalize cdv with
    | .error e => .panicked e
    | .ok cd => .ok ⟨spec.binary, spec.args, cd, spec.env⟩
  | none => .ok ⟨spec.binary, spec.args, currentDir, spec.env⟩

/-- `std::process::ExitStatus`: normal exit with a code, or termination by a
signal (no code available). -/
inductive ExitStatus
  | exited (code : Int)
  | signaled
deriving DecidableEq

/-- `ExitStatus::success()`: exited with code 0. -/
def ExitStatus.success : ExitStatus → Bool
  | .exited c => c == 0
  | .signaled => false

/-- `ExitStatus::code()`: `Some(code)` on normal exit, `None` on a signal. -/
def ExitStatus.exitCode : ExitStatus → Option Int
  | .exited c => some c
  | .signaled => none

/-- The result of `Command::output()`: a completed child (with its exit
status), or an OS spawn error. -/
inductive OutputResult
  | ok (status : ExitStatus)
  | err (ioError : String)
deriving DecidableEq

/-- `CommandError` from `src/lib.rs`. -/
inductive CommandError
  | io (e : String)
  | interrupt
  | code (c : Int)
deriving DecidableEq

/-- `CommandSpecExt::execute` outcome classification (lib.rs lines 59-74):
success when the status is successful; `Code` carrying the exit code when a
code is available; `Interrupt` otherwise; `Io` when spawning failed. -/
def execute : OutputResult → Except CommandError Unit
  | .ok status =>
    if status.success then .ok ()
    else
      match status.exitCode with
      | some c => .error (.code c)
      | none => .error .interrupt
  | .err e => .error (.io e)


/-! ### Round-trip lemmas: `shlex::split` recovers the words that
`shlex::quote` rendered. -/

theorem notSpecial_facts {c : Char} (h : isQuoteSpecial c = false) :
    isShWs c = false ∧ c ≠ '#' ∧ c ≠ '"' ∧ c ≠ squote ∧ c ≠ '\\' ∧ c ≠ '$' ∧ c ≠ backquote := by
  simp only [isQuoteSpecial, Bool.or_eq_false_iff, beq_eq_false_iff_ne, ne_eq] at h
  obtain ⟨⟨⟨⟨⟨⟨⟨⟨⟨⟨⟨⟨⟨⟨⟨⟨⟨⟨⟨⟨⟨⟨h1, h2⟩, h3⟩, h4⟩, h5⟩, h6⟩, h7⟩, h8⟩, h9⟩, h10⟩,
    h11⟩, h12⟩, h13⟩, h14⟩, h15⟩, h16⟩, h17⟩, h18⟩, h19⟩, h20⟩, h21⟩, h22⟩, h23⟩ := h
  refine ⟨?_, ?_, ?_, ?_, ?_, ?_, ?_⟩ <;> simp_all [isShWs]

theorem sr_skip_dq (cur : List Char) (toks : List (List Char)) (rest : List Char) :
    shlexRun .skip cur toks ('"' :: rest) = shlexRun .double [] toks rest := rfl

theorem sr_double_close (cur : List Char) (toks : List (List Char)) (rest : List Char) :
    shlexRun .double cur toks ('"' :: rest) = shlexRun .word cur toks rest := rfl

theorem sr_word_sp (cur : List Char) (toks : List (List Char)) (rest : List Char) :
    shlexRun .word cur toks (' ' :: rest) = shlexRun .skip [] (toks ++ [cur]) rest := rfl

theorem sr_word_end (cur : List Char) (toks : List (List Char)) :
    shlexRun .word cur toks [] = some (toks ++ [cur]) := rfl

theorem shlexRun_double_plain (c : Char) (cur : List Char) (toks : List (List Char))
    (rest : List Char) (h1 : c ≠ '"') (h2 : c ≠ '\\') :
    shlexRun .double cur toks (c :: rest) = shlexRun .double (cur ++ [c]) toks rest := by
  simp [shlexRun, h1, h2]

theorem escDouble_cons_special {c : Char} (s : List Char)
    (h : c = '$' ∨ c = backquote ∨ c = '"' ∨ c = '\\') :
    escDouble (c :: s) = '\\' :: c :: escDouble s := by
  rcases h with h | h | h | h <;> simp [escDouble, h]

theorem escDouble_cons_plain {c : Char} (s : List Char)
    (h : ¬(c = '$' ∨ c = backquote ∨ c = '"' ∨ c = '\\')) :
    escDouble (c :: s) = c :: escDouble s := by
  push_neg at h
  obtain ⟨h1, h2, h3, h4⟩ := h
  simp [escDouble, h1, h2, h3, h4]

theorem escDouble_run : ∀ (s cur : List Char) (toks : List (List Char)) (rest : List Char),
    shlexRun .double cur toks (escDouble s ++ rest) = shlexRun .double (cur ++ s) toks rest
  | [], cur, toks, rest => by simp [escDouble]
  | c :: s, cur, toks, rest => by
    by_cases h : c = '$' ∨ c = backquote ∨ c = '"' ∨ c = '\\'
    · rw [escDouble_cons_special s h]
      have hbs : shlexRun .double cur toks ('\\' :: (c :: (escDouble s ++ rest))) =
          shlexRun .doubleBS cur toks (c :: (escDouble s ++ rest)) := by
        simp [shlexRun]
      have hstep : shlexRun .doubleBS cur toks (c :: (escDouble s ++ rest)) =
          shlexRun .double (cur ++ [c]) toks (escDouble s ++ rest) := by
        simp [shlexRun, h]
      simp only [List.cons_append] at hbs ⊢
      rw [hbs, hstep, escDouble_run s (cur ++ [c]) toks rest, List.append_assoc]
      rfl
    · rw [escDouble_cons_plain s h]
      push_neg at h
      obtain ⟨h1, h2, h3, h4⟩ := h
      rw [List.cons_append, shlexRun_double_plain c cur toks _ h3 h4,
        escDouble_run s (cur ++ [c]) toks rest, List.append_assoc]
      rfl

theorem word_run_plain : ∀ (s cur : List Char) (toks : List (List Char)) (rest : List Char),
    (∀ c ∈ s, isQuoteSpecial c = false) →
    shlexRun .word cur toks (s ++ rest) = shlexRun .word (cur ++ s) toks rest
  | [], cur, toks, rest, _ => by simp
  | c :: s, cur, toks, rest, h => by
    obtain ⟨hws, hhash, hdq, hsq, hbs, hd, hb⟩ := notSpecial_facts (h c (by simp))
    have hstep : shlexRun .word cur toks (c :: (s ++ rest)) =
        shlexRun .word (cur ++ [c]) toks (s ++ rest) := by
      simp [shlexRun, hws, hdq, hsq, hbs]
    rw [List.cons_append, hstep,
      word_run_plain s (cur ++ [c]) toks rest (fun d hd => h d (by simp [hd])),
      List.append_assoc]
    rfl

theorem skip_quote_run (s : List Char) (toks : List (List Char)) (rest : List Char) :
    shlexRun .skip [] toks (shlexQuoteChars s ++ rest) = shlexRun .word s toks rest := by
  by_cases hnil : s = []
  · subst hnil
    show shlexRun .skip [] toks ('"' :: '"' :: rest) = _
    rw [sr_skip_dq, sr_double_close]
  · by_cases hany : s.any isQuoteSpecial
    · have hq : shlexQuoteChars s = '"' :: (escDouble s ++ ['"']) := by
        simp [shlexQuoteChars, hnil, hany]
      rw [hq]
      simp only [List.cons_append, List.append_assoc, List.singleton_append, List.nil_append]
      rw [sr_skip_dq, escDouble_run s [] toks ('"' :: rest), List.nil_append, sr_double_close]
    · have hq : shlexQuoteChars s = s := by simp [shlexQuoteChars, hnil, hany]
      rw [hq]
      obtain ⟨c, s', rfl⟩ : ∃ c s', s = c :: s' := by
        cases s with
        | nil => exact absurd rfl hnil
        | cons c s' => exact ⟨c, s', rfl⟩
      simp only [List.any_eq_true, not_exists, not_and, Bool.not_eq_true] at hany
      obtain ⟨hws, hhash, hdq, hsq, hbs, hd, hb⟩ := notSpecial_facts (hany c (by simp))
      have hstep : shlexRun .skip [] toks (c :: (s' ++ rest)) =
          shlexRun .word [c] toks (s' ++ rest) := by
        simp [shlexRun, hws, hhash, hdq, hsq, hbs]
      rw [List.cons_append, hstep,
        word_run_plain s' [c] toks rest (fun d hd => hany d (by simp [hd]))]
      rfl

theorem quote_run_sep (s : List Char) (toks : List (List Char)) (rest : List Char) :
    shlexRun .skip [] toks (shlexQuoteChars s ++ ' ' :: rest) =
      shlexRun .skip [] (toks ++ [s]) rest := by
  rw [skip_quote_run, sr_word_sp]

theorem quote_run_end (s : List Char) (toks : List (List Char)) :
    shlexRun .skip [] toks (shlexQuoteChars s) = some (toks ++ [s]) := by
  have h := skip_quote_run s toks []
  simp only [List.append_nil] at h
  rw [h, sr_word_end]

theorem join_quote_run : ∀ (ls : List (List Char)) (toks : List (List Char)),
    shlexRun .skip [] toks (joinSep ' ' (ls.map shlexQuoteChars)) = some (toks ++ ls)
  | [], toks => by simp [joinSep, shlexRun]
  | [x], toks => by simpa [joinSep] using quote_run_end x toks
  | x :: y :: ls, toks => by
    have hj : joinSep ' ' ((x :: y :: ls).map shlexQuoteChars) =
        shlexQuoteChars x ++ ' ' :: joinSep ' ' ((y :: ls).map shlexQuoteChars) := by
      simp [joinSep]
    rw [hj, quote_run_sep, join_quote_run (y :: ls) (toks ++ [x]), List.append_assoc]
    rfl

theorem quote_split (s : List Char) : shlexSplitChars (shlexQuoteChars s) = some [s] := by
  have h := quote_run_end s []
  simpa [shlexSplitChars] using h


theorem string_mk_data (s : String) : String.mk s.data = s := rfl


/-- Claim C3: for every string `s`, tokenizing the rendered form of
`CommandArg::Literal(s)` yields exactly one token, equal to `s`. -/
theorem c3_literal_roundtrip (s : String) :
    shlexSplit (CommandArg.render (.Literal s)) = some [s] := by
  show (shlexSplitChars (String.mk (shlexQuoteChars s.data)).data).map (List.map String.mk) =
    some [s]
  rw [show (String.mk (shlexQuoteChars s.data)).data = shlexQuoteChars s.data from rfl,
    quote_split]
  simp [string_mk_data]

/-- Claim C7: for every finite sequence of strings, tokenizing the rendered
form of `CommandArg::List` yields exactly that sequence in order, and
`List([])` renders to the empty string, which tokenizes to zero tokens. -/
theorem c7_list_roundtrip (xs : List String) :
    shlexSplit (CommandArg.render (.List xs)) = some xs ∧
    CommandArg.render (.List ([] : List String)) = "" ∧
    shlexSplit (CommandArg.render (.List ([] : List String))) = some [] := by
  refine ⟨?_, rfl, rfl⟩
  show (shlexSplitChars
      (String.mk (joinSep ' ' (xs.map (fun x => shlexQuoteChars x.data)))).data).map
        (List.map String.mk) = some xs
  rw [show (String.mk (joinSep ' ' (xs.map (fun x => shlexQuoteChars x.data)))).data =
      joinSep ' ' (xs.map (fun x => shlexQuoteChars x.data)) from rfl]
  have hmm : xs.map (fun x => shlexQuoteChars x.data) =
      (xs.map String.data).map shlexQuoteChars := by
    rw [List.map_map]
    rfl
  rw [hmm, show shlexSplitChars (joinSep ' ' ((xs.map String.data).map shlexQuoteChars)) =
      shlexRun .skip [] [] (joinSep ' ' ((xs.map String.data).map shlexQuoteChars)) from rfl,
    join_quote_run (xs.map String.data) []]
  have hid : (String.mk ∘ String.data) = id := funext fun x => rfl
  simp only [List.nil_append, Option.map_some']
  rw [List.map_map, hid, List.map_id]


/-- Claim C1 (code bug): the spec says `export NAME=VALUE` is accepted and
records the binding, while `export` with zero arguments or a missing `=` is a
ParseError.  The source's checks are inverted (internals.rs lines 282-293:
`if line.len() >= 2` and `if !items.is_empty()`), so a well-formed
`export A=1` line is REJECTED with "Not enough arguments in export", and a
bare `export` line is silently ACCEPTED, recording nothing. -/
theorem c1_export_inverted_check :
    impl_commandify "export A=1\ntrue" =
      .err "Not enough arguments in export; expected at least 1, found 1" ∧
    impl_commandify "export\ntrue" = .ok ⟨"true", [], [], none⟩ :=
  ⟨by decide, by decide⟩

/-- Claim C2 counterexample: a spec text whose (single-line) command body has
an unbalanced quote makes parse PANIC via
`.expect("Command string couldn't be parsed by shlex")` (internals.rs line
312, lib.rs line 338) instead of returning a ParseError. -/
theorem c2_body_tokenize_panics_cex :
    impl_commandify "echo 'foo" = .panicked "Command string couldn't be parsed by shlex" := by
  decide

/-- Claim C4 counterexample: when canonicalization of the `cd` directory
fails, `to_command` panics (the `unwrap` at internals.rs line 167 / lib.rs
line 211); it does not return an I/O error to the caller. -/
theorem c4_canonicalize_unwrap_cex :
    CommandSpec.to_command (fun _ => .error "No such file or directory (os error 2)") "/cwd"
      ⟨"true", [], [], some "/definitely/missing"⟩ =
    .panicked "No such file or directory (os error 2)" := rfl

/-- Claim C4 (amended): if the `cd` field is set and canonicalization of it
fails, building the process descriptor PANICS with that error — it neither
returns the error as a value nor silently falls back to the current working
directory. -/
theorem c4_canonicalize_failure_panics (canonicalize : String → Except String String)
    (currentDir : String) (spec : CommandSpec) (cdv e : String)
    (hcd : spec.cd = some cdv) (hc : canonicalize cdv = .error e) :
    CommandSpec.to_command canonicalize currentDir spec = .panicked e := by
  unfold CommandSpec.to_command
  rw [hcd]
  simp [hc]

theorem c4_canonicalize_failure_panics_witness :
    CommandSpec.to_command (fun _ => Except.error "boom") "/x"
      ⟨"true", [], [], some "/missing"⟩ = .panicked "boom" :=
  c4_canonicalize_failure_panics (fun _ => Except.error "boom") "/x"
    ⟨"true", [], [], some "/missing"⟩ "/missing" "boom" rfl rfl

/-- Claim C6 counterexample: for the invalid-UTF-8 path bytes `[0xFF, 0x61]`
the rendered ANSI-C literal is `$'\xffa'` — the printable byte `0x61` appears
verbatim as `a`, NOT as a `\x61` C-style escape sequence, so "every byte of
the path is escaped via its C-style escape sequence" fails. -/
theorem c6_printable_byte_not_escaped_cex :
    commandArgFromPath [255, 97] =
      .Raw (String.mk ['$', squote, '\\', 'x', 'f', 'f', 'a', squote]) ∧
    commandArgFromPath [255, 97] ≠ .Raw (specHexQuote [255, 97]) :=
  ⟨by decide, by decide⟩

/-- Claim C6 (amended): a path whose bytes are valid UTF-8 is classified as
`Literal` of its decoded text; otherwise it is rendered as a `$'...'` ANSI-C
style literal whose body is each byte passed through Rust's
`std::ascii::escape_default` (non-printable bytes as `\xNN` escapes such as
`\x00` and `\xff`; backslash, the two quote characters, tab, CR and LF as
two-character backslash escapes; other printable bytes verbatim). -/
theorem c6_path_rendering (bytes : List Nat) :
    (∀ cs, utf8Decode bytes = some cs → commandArgFromPath bytes = .Literal (String.mk cs)) ∧
    (utf8Decode bytes = none →
      commandArgFromPath bytes =
        .Raw (String.mk ('$' :: squote :: (bytes.flatMap escape_default ++ [squote])))) := by
  constructor
  · intro cs h
    simp [commandArgFromPath, h]
  · intro h
    simp [commandArgFromPath, h, bash_binary_quote]

theorem c6_path_rendering_witness :
    commandArgFromPath [104, 105] = .Literal (String.mk ['h', 'i']) ∧
    commandArgFromPath [255] =
      .Raw (String.mk ('$' :: squote :: (([255] : List Nat).flatMap escape_default ++ [squote]))) :=
  ⟨(c6_path_rendering [104, 105]).1 ['h', 'i'] (by decide),
   (c6_path_rendering [255]).2 (by decide)⟩

/-- Claim C8: `execute` classifies a completed child as success on a
successful exit status, as `Code c` for completion with nonzero exit code
`c`, as the distinct `Interrupt` outcome for termination by a signal (no
exit code), and as `Io` for a spawn failure. -/
theorem c8_execute_classification :
    execute (.ok (.exited 0)) = .ok () ∧
    (∀ c : Int, c ≠ 0 → execute (.ok (.exited c)) = .error (.code c)) ∧
    execute (.ok .signaled) = .error .interrupt ∧
    (∀ e : String, execute (.err e) = .error (.io e)) := by
  refine ⟨rfl, ?_, rfl, fun e => rfl⟩
  intro c hc
  simp [execute, ExitStatus.success, ExitStatus.exitCode, hc]

theorem c8_execute_classification_witness :
    execute (.ok (.exited 42)) = .error (.code 42) :=
  c8_execute_classification.2.1 42 (by decide)


instance : DecidableEq (Except String ParseSt) := fun a b => by
  cases a with
  | error e1 =>
    cases b with
    | error e2 => exact decidable_of_iff (e1 = e2) (by simp)
    | ok s2 => exact isFalse (by simp)
  | ok s1 =>
    cases b with
    | error e2 => exact isFalse (by simp)
    | ok s2 => exact decidable_of_iff (s1 = s2) (by simp)

/-! ### State-machine lemmas for the script-spec parser -/

theorem specStep_blank (st : ParseSt) (l : List Char) (hst : st.state ≠ .Cmd)
    (hb : isBlankChars l = true) : specStep st l = .ok st := by
  simp [specStep, hst, hb]

theorem specStep_cmd (st : ParseSt) (l : List Char) (hst : st.state = .Cmd) :
    specStep st l = .ok { st with commandLines := st.commandLines ++ [l] } := by
  simp [specStep, hst]

theorem specStep_cd_ok (st : ParseSt) (line d : List Char) (hst : st.state = .Cd)
    (hb : isBlankChars line = false) (ht : shlexSplitChars line = some ["cd".data, d]) :
    specStep st line = .ok { st with cd := some d, state := .Env } := by
  simp [specStep, hst, hb, ht]

theorem specStep_cd_wrong_argc (st : ParseSt) (line : List Char) (toks : List (List Char))
    (hst : st.state = .Cd) (hb : isBlankChars line = false)
    (ht : shlexSplitChars line = some ("cd".data :: toks)) (hn : toks.length ≠ 1) :
    specStep st line =
      .error ("Too many arguments in cd; expected 1, found " ++ toString toks.length) := by
  simp [specStep, hst, hb, ht, hn]

theorem specStep_cd_not_first (st : ParseSt) (line : List Char) (toks : List (List Char))
    (hst : st.state = .Env) (hb : isBlankChars line = false)
    (ht : shlexSplitChars line = some ("cd".data :: toks)) :
    specStep st line = .error "cd should be the first line in your command! macro." := by
  simp [specStep, hst, hb, ht]

theorem runSpecAux_skips_blanks :
    ∀ (pre : List (List Char)) (st : ParseSt) (rest : List (List Char)),
    st.state ≠ .Cmd → (∀ l ∈ pre, isBlankChars l = true) →
    runSpecAux st (pre ++ rest) = runSpecAux st rest
  | [], _, _, _, _ => rfl
  | l :: pre, st, rest, hst, hb => by
    rw [List.cons_append]
    simp only [runSpecAux, specStep_blank st l hst (hb l (by simp))]
    exact runSpecAux_skips_blanks pre st rest hst (fun x hx => hb x (by simp [hx]))

/-- Claim C10: a non-blank line seen before the command body has started whose
tokenization fails is mapped to an empty token list (`unwrap_or_default`,
internals.rs line 255), so it matches neither `cd` nor `export`: it is pushed
as the first command-body line and the state moves to `Cmd`; no ParseError is
raised at that point. -/
theorem c10_untokenizable_line_starts_body (st : ParseSt) (rawLine : List Char)
    (hst : st.state ≠ .Cmd) (hblank : isBlankChars rawLine = false)
    (htok : shlexSplitChars rawLine = none) :
    specStep st rawLine =
      .ok { st with commandLines := st.commandLines ++ [rawLine], state := .Cmd } := by
  simp [specStep, hst, hblank, htok]

theorem c10_untokenizable_line_starts_body_witness :
    specStep initParseSt "echo 'foo".data = .ok ⟨.Cmd, [], none, ["echo 'foo".data]⟩ :=
  c10_untokenizable_line_starts_body initParseSt "echo 'foo".data
    (by decide) (by decide) (by decide)

/-- Claim C5 counterexample: a `cd` line appearing AFTER the command body has
started is not rejected: `"echo hi\ncd /tmp"` parses successfully, with the
`cd /tmp` line becoming part of the command body (extra arguments to `echo`). -/
theorem c5_cd_after_body_accepted_cex :
    impl_commandify "echo hi\ncd /tmp" = .ok ⟨"echo", ["hi", "cd", "/tmp"], [], none⟩ := by
  decide

/-- Claim C5 (amended): a first-non-blank-line `cd` with exactly one argument
is accepted and recorded as working directory; a first-line `cd` with a token
count other than one is a ParseError; a `cd` line in the export section
(state `Env`: after the first non-blank line but before the command body) is
a ParseError; but a `cd` line appearing after the command body has started is
appended to the body like any other line, not rejected. -/
theorem c5_cd_parsing :
    (∀ pre line d rest, (∀ l ∈ pre, isBlankChars l = true) → isBlankChars line = false →
      shlexSplitChars line = some ["cd".data, d] →
      runSpecAux initParseSt (pre ++ line :: rest) =
        runSpecAux ⟨.Env, [], some d, []⟩ rest) ∧
    (∀ st line toks, st.state = .Cd → isBlankChars line = false →
      shlexSplitChars line = some ("cd".data :: toks) → toks.length ≠ 1 →
      specStep st line =
        .error ("Too many arguments in cd; expected 1, found " ++ toString toks.length)) ∧
    (∀ st line toks, st.state = .Env → isBlankChars line = false →
      shlexSplitChars line = some ("cd".data :: toks) →
      specStep st line = .error "cd should be the first line in your command! macro.") ∧
    (∀ st line, st.state = .Cmd →
      specStep st line = .ok { st with commandLines := st.commandLines ++ [line] }) := by
  refine ⟨?_, specStep_cd_wrong_argc, specStep_cd_not_first, specStep_cmd⟩
  intro pre line d rest hpre hb ht
  rw [runSpecAux_skips_blanks pre initParseSt (line :: rest) (by decide) hpre]
  simp only [runSpecAux, specStep_cd_ok initParseSt line d rfl hb ht]
  rfl

theorem c5_cd_parsing_witness :
    runSpecAux initParseSt ([] ++ "cd /tmp".data :: ["true".data]) =
      runSpecAux ⟨.Env, [], some "/tmp".data, []⟩ ["true".data] ∧
    specStep initParseSt "cd".data =
      .error ("Too many arguments in cd; expected 1, found " ++
        toString (List.length ([] : List (List Char)))) ∧
    specStep ⟨.Env, [], some "/tmp".data, []⟩ "cd /x".data =
      .error "cd should be the first line in your command! macro." ∧
    specStep ⟨.Cmd, [], none, ["echo hi".data]⟩ "cd /tmp".data =
      .ok ⟨.Cmd, [], none, ["echo hi".data, "cd /tmp".data]⟩ :=
  ⟨c5_cd_parsing.1 [] "cd /tmp".data "/tmp".data ["true".data]
      (by intro l hl; cases hl) (by decide) (by decide),
   c5_cd_parsing.2.1 initParseSt "cd".data [] rfl (by decide) (by decide) (by decide),
   c5_cd_parsing.2.2.1 ⟨.Env, [], some "/tmp".data, []⟩ "cd /x".data ["/x".data]
      rfl (by decide) (by decide),
   c5_cd_parsing.2.2.2 ⟨.Cmd, [], none, ["echo hi".data]⟩ "cd /tmp".data rfl⟩

/-- Claim C2 (amended): failures in the `cd`/`export`/no-command stages
propagate to the caller as error result values — a line-stage error is
returned as-is, and a run that never enters `Cmd` state or collects no body
lines is returned as the "Didn't find a command" error (internals.rs lines
305-307) — but once the command body is assembled, a body that the tokenizer
cannot parse makes parse PANIC (the `expect` at internals.rs line 312), and a
body tokenizing to an empty token list makes parse PANIC in `Vec::remove(0)`
(line 313) — neither is returned as a ParseError. -/
theorem c2_parse_error_vs_body_panic :
    (∀ s e, runSpecAux initParseSt (splitLines (trimChars s)) = .error e →
      impl_commandifyChars s = .err e) ∧
    (∀ s st, runSpecAux initParseSt (splitLines (trimChars s)) = .ok st →
      st.state ≠ .Cmd ∨ st.commandLines = [] →
      impl_commandifyChars s = .err "Didn't find a command in your command! macro.") ∧
    (∀ s st, runSpecAux initParseSt (splitLines (trimChars s)) = .ok st →
      st.state = .Cmd → st.commandLines ≠ [] →
      ((shlexSplitChars (assembleBody st.commandLines) = none →
        impl_commandifyChars s = .panicked "Command string couldn't be parsed by shlex") ∧
       (shlexSplitChars (assembleBody st.commandLines) = some [] →
        impl_commandifyChars s = .panicked "removal index (is 0) should be < len (is 0)"))) := by
  refine ⟨?_, ?_, ?_⟩
  · intro s e h
    simp [impl_commandifyChars, h]
  · intro s st h hbad
    rcases hbad with hb | hb
    · simp [impl_commandifyChars, h, finishSpec, hb]
    · simp [impl_commandifyChars, h, finishSpec, hb]
  · intro s st h hst hne
    constructor
    · intro htok
      simp [impl_commandifyChars, h, finishSpec, hst, hne, htok]
    · intro htok
      simp [impl_commandifyChars, h, finishSpec, hst, hne, htok]

theorem c2_parse_error_vs_body_panic_witness :
    impl_commandifyChars "cd\ntrue".data = .err "Too many arguments in cd; expected 1, found 0" ∧
    impl_commandifyChars "cd /tmp".data =
      .err "Didn't find a command in your command! macro." ∧
    impl_commandifyChars "echo 'foo".data =
      .panicked "Command string couldn't be parsed by shlex" ∧
    impl_commandifyChars "# note".data =
      .panicked "removal index (is 0) should be < len (is 0)" :=
  ⟨c2_parse_error_vs_body_panic.1 "cd\ntrue".data
      "Too many arguments in cd; expected 1, found 0" (by decide),
   c2_parse_error_vs_body_panic.2.1 "cd /tmp".data ⟨.Env, [], some "/tmp".data, []⟩
      (by decide) (Or.inl (by decide)),
   (c2_parse_error_vs_body_panic.2.2 "echo 'foo".data ⟨.Cmd, [], none, ["echo 'foo".data]⟩
      (by decide) rfl (by decide)).1 (by decide),
   (c2_parse_error_vs_body_panic.2.2 "# note".data ⟨.Cmd, [], none, ["# note".data]⟩
      (by decide) rfl (by decide)).2 (by decide)⟩


/-! ### Trim / line-splitting lemmas for claim C9 -/

theorem dropWhile_append_all {p : Char → Bool} :
    ∀ (a b : List Char), (∀ c ∈ a, p c = true) → (a ++ b).dropWhile p = b.dropWhile p
  | [], _, _ => rfl
  | c :: a, b, h => by
    rw [List.cons_append, List.dropWhile_cons, if_pos (h c (by simp))]
    exact dropWhile_append_all a b (fun x hx => h x (by simp [hx]))

theorem dropWhile_append_ne {p : Char → Bool} :
    ∀ (a b : List Char), a.dropWhile p ≠ [] → (a ++ b).dropWhile p = a.dropWhile p ++ b
  | [], _, h => absurd rfl h
  | c :: a, b, h => by
    by_cases hp : p c = true
    · rw [List.dropWhile_cons, if_pos hp] at h ⊢
      rw [List.cons_append, List.dropWhile_cons, if_pos hp]
      exact dropWhile_append_ne a b h
    · rw [List.cons_append, List.dropWhile_cons, if_neg hp,
        List.dropWhile_cons, if_neg hp, List.cons_append]

theorem trimChars_pad (pre s post : List Char) (hpre : ∀ c ∈ pre, isRustWs c = true)
    (hpost : ∀ c ∈ post, isRustWs c = true) :
    trimChars (pre ++ s ++ post) = trimChars s := by
  unfold trimChars
  rw [List.append_assoc, dropWhile_append_all pre (s ++ post) hpre]
  by_cases h : s.dropWhile isRustWs = []
  · rw [dropWhile_append_all s post (List.dropWhile_eq_nil_iff.mp h), h,
      List.dropWhile_eq_nil_iff.mpr hpost]
  · rw [dropWhile_append_ne s post h, List.reverse_append,
      dropWhile_append_all post.reverse (s.dropWhile isRustWs).reverse
        (fun c hc => hpost c (List.mem_reverse.mp hc))]

theorem head?_dropWhile_false {p : Char → Bool} :
    ∀ (l : List Char) (c : Char), (l.dropWhile p).head? = some c → p c = false
  | [], c, h => by cases h
  | a :: l, c, h => by
    by_cases hp : p a = true
    · rw [List.dropWhile_cons, if_pos hp] at h
      exact head?_dropWhile_false l c h
    · rw [List.dropWhile_cons, if_neg hp] at h
      simp only [List.head?_cons, Option.some.injEq] at h
      subst h
      exact Bool.eq_false_iff.mpr hp

theorem trimChars_getLast_not_ws (l : List Char) (c : Char)
    (h : (trimChars l).getLast? = some c) : isRustWs c = false := by
  unfold trimChars at h
  rw [List.getLast?_reverse] at h
  exact head?_dropWhile_false _ c h

theorem isBlankChars_all_ws (l : List Char) (h : isBlankChars l = true) :
    ∀ c ∈ l, isRustWs c = true := by
  intro c hc
  have htrim : trimChars l = [] := by
    simpa [isBlankChars] using h
  unfold trimChars at htrim
  have h2 : (l.dropWhile isRustWs).reverse.dropWhile isRustWs = [] := by
    simpa using htrim
  have hdrop : ∀ x ∈ l.dropWhile isRustWs, isRustWs x = true := by
    intro x hx
    exact List.dropWhile_eq_nil_iff.mp h2 x (List.mem_reverse.mpr hx)
  rcases List.mem_append.mp
      ((List.takeWhile_append_dropWhile isRustWs l).symm ▸ hc : c ∈ _) with htk | hdr
  · exact List.mem_takeWhile_imp htk
  · exact hdrop c hdr

theorem splitLines_ne_nil : ∀ l : List Char, splitLines l ≠ [] := by
  intro l
  cases l with
  | nil => simp [splitLines]
  | cons c rest =>
    by_cases h : c = '\n'
    · simp [splitLines, h]
    · simp only [splitLines, if_neg h]
      cases splitLines rest <;> simp

theorem getLast?_cons_of_ne_nil {α : Type} (a : α) (l : List α) (h : l ≠ []) :
    (a :: l).getLast? = l.getLast? := by
  cases l with
  | nil => exact absurd rfl h
  | cons b l2 => exact List.getLast?_cons_cons

theorem splitLines_getLast_mem :
    ∀ (l : List Char) (c : Char), l.getLast? = some c → c ≠ '\n' →
    ∀ ll, (splitLines l).getLast? = some ll → c ∈ ll
  | [], c, h, _, _, _ => by cases h
  | a :: rest, c, h, hc, ll, hll => by
    by_cases ha : a = '\n'
    · subst ha
      cases rest with
      | nil =>
        have hca : c = '\n' := by simpa using h.symm
        exact absurd hca hc
      | cons b rest2 =>
        rw [getLast?_cons_of_ne_nil '\n' (b :: rest2) (by simp)] at h
        rw [show splitLines ('\n' :: b :: rest2) = [] :: splitLines (b :: rest2) from rfl,
          getLast?_cons_of_ne_nil _ _ (splitLines_ne_nil (b :: rest2))] at hll
        exact splitLines_getLast_mem (b :: rest2) c h hc ll hll
    · simp only [splitLines, if_neg ha] at hll
      cases hsp : splitLines rest with
      | nil => exact absurd hsp (splitLines_ne_nil rest)
      | cons x xs =>
        rw [hsp] at hll
        cases xs with
        | nil =>
          have hll2 : ll = a :: x := by simpa using hll.symm
          subst hll2
          cases rest with
          | nil =>
            have hca : c = a := by simpa using h.symm
            subst hca
            simp
          | cons b rest2 =>
            rw [getLast?_cons_of_ne_nil a (b :: rest2) (by simp)] at h
            have hmem := splitLines_getLast_mem (b :: rest2) c h hc x (by rw [hsp]; rfl)
            exact List.mem_cons_of_mem a hmem
        | cons y ys =>
          rw [getLast?_cons_of_ne_nil (a :: x) (y :: ys) (by simp)] at hll
          have hrest_ne : rest ≠ [] := by
            intro he
            subst he
            simp [show splitLines ([] : List Char) = [[]] from rfl] at hsp
          have hlast : rest.getLast? = some c := by
            cases rest with
            | nil => exact absurd rfl hrest_ne
            | cons b rest2 =>
              rw [getLast?_cons_of_ne_nil a (b :: rest2) (by simp)] at h
              exact h
          exact splitLines_getLast_mem rest c hlast hc ll (by rw [hsp]; exact hll)

/-- Every successful `specStep` either appends the line to the command body
(reaching or staying in `Cmd` state), or leaves the command body unchanged
while remaining outside `Cmd` state. -/
theorem specStep_ok_cases (st : ParseSt) (l : List Char) (st2 : ParseSt)
    (h : specStep st l = .ok st2) :
    (st2.commandLines = st.commandLines ++ [l] ∧ st2.state = .Cmd) ∨
    (st2.commandLines = st.commandLines ∧ st2.state ≠ .Cmd ∧ st.state ≠ .Cmd) := by
  by_cases hc : st.state = .Cmd
  · rw [specStep_cmd st l hc] at h
    simp only [Except.ok.injEq] at h
    subst h
    exact Or.inl ⟨rfl, hc⟩
  · by_cases hb : isBlankChars l = true
    · rw [specStep_blank st l hc hb] at h
      simp only [Except.ok.injEq] at h
      subst h
      exact Or.inr ⟨rfl, hc, hc⟩
    · simp only [specStep, if_neg hc, hb, if_false, Bool.false_eq_true] at h
      cases hhead : ((shlexSplitChars l).getD []).head? with
      | none =>
        simp only [hhead, Except.ok.injEq] at h
        subst h
        exact Or.inl ⟨rfl, rfl⟩
      | some tok =>
        simp only [hhead] at h
        by_cases hcd : tok = ['c', 'd']
        · rw [if_pos hcd] at h
          by_cases h1 : st.state ≠ .Cd
          · rw [if_pos h1] at h
            exact Except.noConfusion h
          · rw [if_neg h1] at h
            by_cases h2 : ((shlexSplitChars l).getD []).length ≠ 2
            · rw [if_pos h2] at h
              exact Except.noConfusion h
            · rw [if_neg h2] at h
              simp only [Except.ok.injEq] at h
              subst h
              exact Or.inr ⟨rfl, by simp, hc⟩
        · rw [if_neg hcd] at h
          by_cases hex : tok = ['e', 'x', 'p', 'o', 'r', 't']
          · rw [if_pos hex] at h
            by_cases h1 : st.state ≠ .Cd ∧ st.state ≠ .Env
            · rw [if_pos h1] at h
              exact Except.noConfusion h
            · rw [if_neg h1] at h
              by_cases h2 : 2 ≤ ((shlexSplitChars l).getD []).length
              · rw [if_pos h2] at h
                exact Except.noConfusion h
              · rw [if_neg h2] at h
                cases hef : exportFold st.env (((shlexSplitChars l).getD []).drop 1) with
                | error e =>
                  rw [hef] at h
                  exact Except.noConfusion h
                | ok env2 =>
                  rw [hef] at h
                  simp only [Except.ok.injEq] at h
                  subst h
                  exact Or.inr ⟨rfl, by simp, hc⟩
          · rw [if_neg hex] at h
            simp only [Except.ok.injEq] at h
            subst h
            exact Or.inl ⟨rfl, rfl⟩

theorem runSpecAux_append :
    ∀ (a b : List (List Char)) (st : ParseSt),
    runSpecAux st (a ++ b) =
      match runSpecAux st a with
      | .error e => .error e
      | .ok st2 => runSpecAux st2 b
  | [], b, st => rfl
  | l :: a, b, st => by
    rw [List.cons_append]
    cases hs : specStep st l with
    | error e =>
      have h1 : runSpecAux st (l :: (a ++ b)) = .error e := by
        simp only [runSpecAux, hs]
      have h2 : runSpecAux st (l :: a) = .error e := by
        simp only [runSpecAux, hs]
      rw [h1, h2]
    | ok st1 =>
      have h1 : runSpecAux st (l :: (a ++ b)) = runSpecAux st1 (a ++ b) := by
        simp only [runSpecAux, hs]
      have h2 : runSpecAux st (l :: a) = runSpecAux st1 a := by
        simp only [runSpecAux, hs]
      rw [h1, h2, runSpecAux_append a b st1]

theorem runSpecAux_inv :
    ∀ (lines : List (List Char)) (st st2 : ParseSt),
    (st.state ≠ .Cmd → st.commandLines = []) → runSpecAux st lines = .ok st2 →
    st2.state ≠ .Cmd → st2.commandLines = []
  | [], st, st2, hinv, h => by
    simp only [runSpecAux, Except.ok.injEq] at h
    subst h
    exact hinv
  | l :: ls, st, st2, hinv, h => by
    simp only [runSpecAux] at h
    cases hs : specStep st l with
    | error e =>
      rw [hs] at h
      exact Except.noConfusion h
    | ok st1 =>
      rw [hs] at h
      refine runSpecAux_inv ls st1 st2 ?_ h
      intro hne
      rcases specStep_ok_cases st l st1 hs with ⟨_, hcmd⟩ | ⟨hcl, _, hstne⟩
      · exact absurd hcmd hne
      · rw [hcl]
        exact hinv hstne

/-- If a run from a `Cmd`-free empty-body state ends with a nonempty command
body, the last collected body line is the last input line. -/
theorem runSpecAux_getLast (lines : List (List Char)) (st st2 : ParseSt)
    (hinv : st.state ≠ .Cmd → st.commandLines = []) (hcl : st.commandLines = [])
    (h : runSpecAux st lines = .ok st2) (hne : st2.commandLines ≠ []) :
    st2.commandLines.getLast? = lines.getLast? := by
  rcases List.eq_nil_or_concat' lines with rfl | ⟨a, l, rfl⟩
  · simp only [runSpecAux, Except.ok.injEq] at h
    subst h
    exact absurd hcl hne
  · rw [runSpecAux_append a [l] st] at h
    cases ha : runSpecAux st a with
    | error e =>
      rw [ha] at h
      exact Except.noConfusion h
    | ok st1 =>
      rw [ha] at h
      have hinv1 := runSpecAux_inv a st st1 hinv ha
      simp only [runSpecAux] at h
      cases hs : specStep st1 l with
      | error e =>
        rw [hs] at h
        exact Except.noConfusion h
      | ok st3 =>
        rw [hs] at h
        simp only [Except.ok.injEq] at h
        subst h
        rcases specStep_ok_cases st1 l _ hs with ⟨happ, _⟩ | ⟨heq, _, hstne⟩
        · rw [happ, List.getLast?_concat, List.getLast?_concat]
        · rw [heq] at hne ⊢
          exact absurd (hinv1 hstne) hne

/-- Claim C9: parse trims leading and trailing whitespace from the whole text
before splitting it into lines — surrounding whitespace (including leading
and trailing blank lines) never changes the result — and whenever the line
state machine completes successfully, the last collected command-body line is
non-blank, so the assembled command body never ends with blank lines; yet a
blank line seen in `Cmd` state is appended to the body verbatim, so blank
lines between command-body lines are preserved. -/
theorem c9_trim_and_no_trailing_blank :
    (∀ pre s post, (∀ c ∈ pre, isRustWs c = true) → (∀ c ∈ post, isRustWs c = true) →
      impl_commandifyChars (pre ++ s ++ post) = impl_commandifyChars s) ∧
    (∀ s st, runSpecAux initParseSt (splitLines (trimChars s)) = .ok st →
      ∀ ll, st.commandLines.getLast? = some ll → isBlankChars ll = false) ∧
    (∀ st l, st.state = .Cmd → isBlankChars l = true →
      specStep st l = .ok { st with commandLines := st.commandLines ++ [l] }) := by
  refine ⟨?_, ?_, fun st l hst _ => specStep_cmd st l hst⟩
  · intro pre s post hpre hpost
    unfold impl_commandifyChars
    rw [trimChars_pad pre s post hpre hpost]
  · intro s st h ll hll
    have hne : st.commandLines ≠ [] := by
      intro he
      rw [he] at hll
      cases hll
    have hlast := runSpecAux_getLast (splitLines (trimChars s)) initParseSt st
      (fun _ => rfl) rfl h hne
    by_cases htr : trimChars s = []
    · rw [htr] at h
      have hrun : runSpecAux initParseSt (splitLines ([] : List Char)) = .ok initParseSt := by
        decide
      rw [hrun] at h
      simp only [Except.ok.injEq] at h
      subst h
      exact absurd rfl hne
    · obtain ⟨c, hlc⟩ : ∃ c, (trimChars s).getLast? = some c := by
        cases hgl : (trimChars s).getLast? with
        | none => exact absurd (List.getLast?_eq_none_iff.mp hgl) htr
        | some c => exact ⟨c, rfl⟩
      have hnw : isRustWs c = false := trimChars_getLast_not_ws s c hlc
      have hcn : c ≠ '\n' := by
        intro he
        rw [he] at hnw
        simp [isRustWs] at hnw
      have hllines : (splitLines (trimChars s)).getLast? = some ll := by
        rw [← hlast]
        exact hll
      have hmem := splitLines_getLast_mem (trimChars s) c hlc hcn ll hllines
      cases hbl : isBlankChars ll with
      | false => rfl
      | true =>
        have hws := isBlankChars_all_ws ll hbl c hmem
        rw [hws] at hnw
        cases hnw

theorem c9_trim_and_no_trailing_blank_witness :
    impl_commandifyChars (['\n'] ++ "true".data ++ [' ']) = impl_commandifyChars "true".data ∧
    isBlankChars "true".data = false ∧
    specStep ⟨.Cmd, [], none, ["echo a".data]⟩ "  ".data =
      .ok ⟨.Cmd, [], none, ["echo a".data, "  ".data]⟩ :=
  ⟨c9_trim_and_no_trailing_blank.1 ['\n'] "true".data [' '] (by decide) (by decide),
   c9_trim_and_no_trailing_blank.2.1 "true".data ⟨.Cmd, [], none, ["true".data]⟩
      (by decide) "true".data rfl,
   c9_trim_and_no_trailing_blank.2.2 ⟨.Cmd, [], none, ["echo a".data]⟩ "  ".data
      rfl (by decide)⟩

end Commandspec
